import Mathlib

set_option maxHeartbeats 1600000

namespace Ralphy

/-!
Shallow embedding of the ralphy task runner (TypeScript, executed on Bun).

File contents are modelled as Lean strings; the JavaScript string operations
used by the code (splitting on the regular expression for CR-LF or LF,
trimming, the task-line and YAML patterns) are translated character by
character below.  Each definition carries the name of the TypeScript function
it embeds.
-/

/-- Line-terminator characters: the characters the JavaScript regex
metacharacter dot refuses to match (LF, CR, U+2028, U+2029). -/
def isLineTerm (c : Char) : Bool :=
  c = '\n' || c = '\r' || c.val == 0x2028 || c.val == 0x2029

/-- Characters of the JavaScript whitespace class (backslash-s), also the set
removed by the JavaScript trim functions. -/
def isJsSpace (c : Char) : Bool :=
  c = ' ' || c = '\t' || c = '\n' || c = '\r' || c.val == 0x0b || c.val == 0x0c ||
  c.val == 0xa0 || c.val == 0x1680 || (0x2000 ≤ c.val && c.val ≤ 0x200a) ||
  c.val == 0x2028 || c.val == 0x2029 || c.val == 0x202f || c.val == 0x205f ||
  c.val == 0x3000 || c.val == 0xfeff

/-- Characters of the character class holding tab and space, used by the
Markdown task-line pattern. -/
def isTabSpace (c : Char) : Bool := c = '\t' || c = ' '

/-- JavaScript String.prototype.trim on a character list. -/
def trimJs (l : List Char) : List Char :=
  ((l.dropWhile isJsSpace).reverse.dropWhile isJsSpace).reverse

/-- JavaScript String.prototype.trimStart on a character list. -/
def trimStartJs (l : List Char) : List Char := l.dropWhile isJsSpace

/-- JavaScript String.prototype.split on the regex matching an optional CR
followed by LF: the split used by every file-content function in the code.
A lone CR is ordinary content; CR-LF and LF are separators. -/
def splitLines : List Char → List (List Char)
  | [] => [[]]
  | '\r' :: '\n' :: rest => [] :: splitLines rest
  | '\n' :: rest => [] :: splitLines rest
  | c :: rest =>
    match splitLines rest with
    | [] => [[c]]
    | l :: ls => (c :: l) :: ls

/-- JavaScript Array.prototype.join with the LF separator, used to reassemble
updated file contents. -/
def joinLines : List (List Char) → List Char
  | [] => []
  | [l] => l
  | l :: ls => l ++ '\n' :: joinLines ls

/-- Completion status shared by the Markdown and YAML task completion
functions. -/
inductive CompletionStatus
  | updated
  | notFound
  | alreadyComplete
deriving DecidableEq, Repr

/-! ### Markdown task source (src/core/tasks/markdown.ts) -/

/-- Match of the Markdown task-line pattern: capture group one (indentation,
list marker, following whitespace), the status character, and the task text. -/
structure MdLineMatch where
  prefixPart : List Char
  statusChar : Char
  text : List Char
deriving DecidableEq, Repr

/-- The task-line pattern of markdown.ts: optional tabs and spaces, a dash or
star marker, at least one tab or space, a bracketed status character (space,
lower x or upper X), at least one tab or space, then the task text.  The
trailing dot-star capture requires the text to be free of line terminators. -/
def matchTaskLine (l : List Char) : Option MdLineMatch :=
  let ind := l.takeWhile isTabSpace
  match l.dropWhile isTabSpace with
  | m :: r2 =>
    if m = '-' || m = '*' then
      match r2.takeWhile isTabSpace, r2.dropWhile isTabSpace with
      | _ :: _, '[' :: st :: ']' :: r4 =>
        if st = ' ' || st = 'x' || st = 'X' then
          match r4.takeWhile isTabSpace, r4.dropWhile isTabSpace with
          | _ :: _, text =>
            if text.all (fun c => !isLineTerm c) then
              some ⟨ind ++ m :: r2.takeWhile isTabSpace, st, text⟩
            else none
          | [], _ => none
        else none
      | _, _ => none
    else none
  | [] => none

/-- Loop body of completeMarkdownTask over the split lines: find the first
task line whose trimmed text equals the (already trimmed) target; report
already-complete when its status letter lowercases to x, otherwise replace the
line by the captured prefix, a checked box, one space and the captured text. -/
def completeMdLines (target : List Char) : List (List Char) → CompletionStatus × List (List Char)
  | [] => (.notFound, [])
  | l :: ls =>
    match matchTaskLine l with
    | none =>
      let r := completeMdLines target ls
      (r.1, l :: r.2)
    | some m =>
      if trimJs m.text ≠ target then
        let r := completeMdLines target ls
        (r.1, l :: r.2)
      else if Char.toLower m.statusChar = 'x' then
        (.alreadyComplete, l :: ls)
      else
        (.updated, (m.prefixPart ++ '[' :: 'x' :: ']' :: ' ' :: m.text) :: ls)

/-- Result record of completeMarkdownTask. -/
structure MdResult where
  status : CompletionStatus
  taskText : String
  updated : String
deriving DecidableEq, Repr

/-- completeMarkdownTask of markdown.ts: split the contents, run the line
loop, and rejoin with LF on update; on the other statuses the original
contents are returned unchanged. -/
def completeMarkdownTask (contents taskText : String) : MdResult :=
  let r := completeMdLines (trimJs taskText.data) (splitLines contents.data)
  match r.1 with
  | .updated => ⟨.updated, taskText, String.mk (joinLines r.2)⟩
  | s => ⟨s, taskText, contents⟩

/-! ### YAML task source (src/core/tasks/yaml.ts) -/

/-- Task block of yaml.ts: start line index, the block's lines, and the
indentation captured from the item line. -/
structure TaskBlock where
  startIndex : Nat
  lines : List (List Char)
  itemIndent : List Char
deriving DecidableEq, Repr

/-- Parsed properties of a task block. -/
structure ParsedBlock where
  title : List Char
  completed : Bool
  parallelGroup : Int
  completedLineOffset : Option Nat
  titleLineOffset : Option Nat
  propertyIndent : List Char
deriving DecidableEq, Repr

/-- parseYamlValue of yaml.ts: trim, then strip one pair of surrounding
single or double quotes. -/
def parseYamlValue (value : List Char) : List Char :=
  let t := trimJs value
  if t ≠ [] ∧ ((t.head? = some '"' ∧ t.getLast? = some '"') ∨
      (t.head? = some '\'' ∧ t.getLast? = some '\'')) then
    (t.drop 1).dropLast
  else t

/-- parseBoolean of yaml.ts: the unquoted value lowercases to the word true.
Lowercasing is modelled on ASCII letters, as in the inputs the code handles. -/
def parseBoolean (value : List Char) : Bool :=
  (parseYamlValue value).map Char.toLower = "true".data

/-- JavaScript Number.parseInt in base ten: skip leading whitespace, read an
optional sign and then a longest digit prefix; none when no digit follows. -/
def parseIntJs (s : List Char) : Option Int :=
  let t := s.dropWhile isJsSpace
  let signRest : Int × List Char :=
    match t with
    | '-' :: r => (-1, r)
    | '+' :: r => (1, r)
    | r => (1, r)
  let digits := signRest.2.takeWhile Char.isDigit
  if digits = [] then none
  else some (signRest.1 * (digits.foldl (fun n c => n * 10 + ((c.val.toNat : Int) - 48)) 0))

/-- parseNumber of yaml.ts: parseInt of the unquoted value, zero when the
result is not a number. -/
def parseNumber (value : List Char) : Int :=
  (parseIntJs (parseYamlValue value)).getD 0

/-- The tasks-header pattern of yaml.ts: optional whitespace, the literal
word tasks with a colon, optional whitespace to the end of the line.  Returns
the captured indentation. -/
def matchTasksHeader (l : List Char) : Option (List Char) :=
  let ind := l.takeWhile isJsSpace
  let r := l.dropWhile isJsSpace
  if r.take 6 = "tasks:".data ∧ (r.drop 6).all isJsSpace then some ind else none

/-- The item-line pattern of yaml.ts: optional whitespace, a dash, at least
one whitespace character, then an optional dot-matchable remainder. -/
def isItemLine (l : List Char) : Bool :=
  match l.dropWhile isJsSpace with
  | '-' :: r2 =>
    decide ((r2.takeWhile isJsSpace) ≠ []) &&
      (r2.dropWhile isJsSpace).all (fun c => !isLineTerm c)
  | _ => false

/-- Scan of extractTaskBlocks after the tasks header.  A non-blank line whose
indentation does not exceed the header's stops the scan; an item line deeper
than the header starts a new block; any other line is appended to the current
block.  The code pushes the current block both inside its stop branch and
after the loop, so a stopped scan reports the final block twice. -/
def extractLoop (tlen : Nat) : List (List Char) → Nat → Option TaskBlock → List TaskBlock
  | [], _, cur => cur.toList
  | l :: ls, i, cur =>
    let indentLen := (l.takeWhile isJsSpace).length
    if trimJs l ≠ [] ∧ indentLen ≤ tlen then
      cur.toList ++ cur.toList
    else if isItemLine l ∧ tlen < indentLen then
      cur.toList ++ extractLoop tlen ls (i + 1) (some ⟨i, [l], l.takeWhile isJsSpace⟩)
    else
      match cur with
      | some b => extractLoop tlen ls (i + 1) (some { b with lines := b.lines ++ [l] })
      | none => extractLoop tlen ls (i + 1) none

/-- extractTaskBlocks of yaml.ts: locate the tasks header, then scan the
following lines for item blocks. -/
def extractTaskBlocks (contents : List Char) : List TaskBlock :=
  let lines := splitLines contents
  match lines.findIdx? (fun l => (matchTasksHeader l).isSome) with
  | none => []
  | some headerIndex =>
    let headerLine := lines.getD headerIndex []
    let tasksIndent := (matchTasksHeader headerLine).getD []
    extractLoop tasksIndent.length (lines.drop (headerIndex + 1)) (headerIndex + 1) none

/-- The key-value pattern of parseTaskBlock: a nonempty run of word
characters, optional whitespace, a colon, optional whitespace, then a
dot-matchable value. -/
def matchKeyValue (content : List Char) : Option (List Char × List Char) :=
  let isWord : Char → Bool := fun c => c.isAlphanum || c = '_'
  let key := content.takeWhile isWord
  let r1 := content.dropWhile isWord
  if key = [] then none
  else
    match r1.dropWhile isJsSpace with
    | ':' :: r2 =>
      let value := r2.dropWhile isJsSpace
      if value.all (fun c => !isLineTerm c) then some (key, value) else none
    | _ => none

/-- The dash-content pattern applied to a block's first line: optional
whitespace, a dash, optional whitespace, then the dot-matchable content. -/
def matchDashContent (l : List Char) : Option (List Char) :=
  match l.dropWhile isJsSpace with
  | '-' :: r2 =>
    let content := r2.dropWhile isJsSpace
    if content.all (fun c => !isLineTerm c) then some content else none
  | _ => none

/-- Per-line step of parseTaskBlock: skip blank and comment lines, extract
the line's key-value content (after the dash on the first line, trimmed
elsewhere), remember the latest deeper-line indentation as the property
indentation, and record title, completed and parallel-group properties. -/
def parseBlockStep (idx : Nat) (line : List Char) (acc : ParsedBlock) : ParsedBlock :=
  let trimmed := trimJs line
  if trimmed = [] ∨ trimmed.head? = some '#' then acc
  else
    let content := if idx = 0 then (matchDashContent line).getD [] else trimStartJs line
    match matchKeyValue content with
    | none => acc
    | some kv =>
      let acc1 := if 0 < idx then { acc with propertyIndent := line.takeWhile isJsSpace } else acc
      if kv.1 = "title".data then
        { acc1 with title := parseYamlValue kv.2, titleLineOffset := some idx }
      else if kv.1 = "completed".data then
        { acc1 with completed := parseBoolean kv.2, completedLineOffset := some idx }
      else if kv.1 = "parallel_group".data then
        { acc1 with parallelGroup := parseNumber kv.2 }
      else acc1

/-- Fold of parseBlockStep over a block's lines with their offsets. -/
def parseBlockLines : List (List Char) → Nat → ParsedBlock → ParsedBlock
  | [], _, acc => acc
  | l :: ls, idx, acc => parseBlockLines ls (idx + 1) (parseBlockStep idx l acc)

/-- parseTaskBlock of yaml.ts. -/
def parseTaskBlock (b : TaskBlock) : ParsedBlock :=
  parseBlockLines b.lines 0 ⟨[], false, 0, none, none, b.itemIndent ++ [' ', ' ']⟩

/-- The completed-line pattern of completeYamlTask: captured whitespace, the
literal word completed, optional whitespace, a colon, optional whitespace
(all of that is capture group one), then a value region running to the first
hash sign and a dot-matchable remainder (capture group three). -/
def matchCompletedLine (l : List Char) : Option (List Char × List Char) :=
  let ws0 := l.takeWhile isJsSpace
  let r0 := l.dropWhile isJsSpace
  if r0.take 9 = "completed".data then
    let r1 := r0.drop 9
    let wsA := r1.takeWhile isJsSpace
    match r1.dropWhile isJsSpace with
    | ':' :: r2 =>
      let wsB := r2.takeWhile isJsSpace
      let rest := r2.dropWhile isJsSpace
      let g3 := rest.dropWhile (fun c => c ≠ '#')
      if g3.all (fun c => !isLineTerm c) then
        some (ws0 ++ "completed".data ++ wsA ++ ':' :: wsB, g3)
      else none
    | _ => none
  else none

/-- Result record of completeYamlTask. -/
structure YamlResult where
  status : CompletionStatus
  taskTitle : String
  updated : String
deriving DecidableEq, Repr

/-- Block loop of completeYamlTask: find the first block whose trimmed title
equals the (already trimmed) target.  A completed block reports
already-complete; a block with a completed line has that line rewritten
(value replaced by true, remainder from the first hash sign kept, or the
whole line replaced when the completed-line pattern fails); otherwise a
completed-true line is inserted right after the title line. -/
def completeYamlBlocks (lines : List (List Char)) (target : List Char) :
    List TaskBlock → CompletionStatus × List (List Char)
  | [] => (.notFound, lines)
  | b :: bs =>
    let parsed := parseTaskBlock b
    if trimJs parsed.title ≠ target then completeYamlBlocks lines target bs
    else if parsed.completed then (.alreadyComplete, lines)
    else
      match parsed.completedLineOffset with
      | some off =>
        let lineIndex := b.startIndex + off
        let currentLine := lines.getD lineIndex []
        let newLine :=
          match matchCompletedLine currentLine with
          | some g => g.1 ++ "true".data ++ g.2
          | none => parsed.propertyIndent ++ "completed: true".data
        (.updated, lines.set lineIndex newLine)
      | none =>
        let insertIndex := b.startIndex + parsed.titleLineOffset.getD 0 + 1
        (.updated, lines.insertIdx insertIndex (parsed.propertyIndent ++ "completed: true".data))

/-- completeYamlTask of yaml.ts. -/
def completeYamlTask (contents taskTitle : String) : YamlResult :=
  let r := completeYamlBlocks (splitLines contents.data) (trimJs taskTitle.data)
    (extractTaskBlocks contents.data)
  match r.1 with
  | .updated => ⟨.updated, taskTitle, String.mk (joinLines r.2)⟩
  | s => ⟨s, taskTitle, contents⟩

/-! ### Agent output parsing and the single-task executor (src/core/single.ts)

Stdout decoding: the code splits stdout on line terminators and decodes each
non-empty line with the platform JSON parser, silently skipping undecodable
lines.  The platform parser is outside the program; its output is modelled as
the list of decoded events carried alongside the raw stdout in the runner
result.  Numeric payloads are modelled as integers. -/

/-- Decoded JSON value. -/
inductive Json where
  | null
  | bool (b : Bool)
  | num (n : Int)
  | str (s : String)
  | arr (elems : List Json)
  | obj (fields : List (String × Json))

/-- Property access on a decoded value: objects look keys up with the last
duplicate winning, as the platform JSON parser produces; every other value
(including arrays, which the code's record test lets through but which carry
no such named properties) yields nothing. -/
def jget : Json → String → Option Json
  | .obj fields, k => (fields.reverse.find? (fun f => f.1 = k)).map (fun f => f.2)
  | _, _ => none

/-- getString of single.ts, composed with property access. -/
def getString : Option Json → Option String
  | some (.str s) => some s
  | _ => none

/-- getNumber of single.ts, composed with property access. -/
def getNumber : Option Json → Option Int
  | some (.num n) => some n
  | _ => none

/-- readErrorMessage of single.ts: the message of the error property when it
is a nonempty string, else the event's own nonempty message property. -/
def readErrorMessage (e : Json) : Option String :=
  let m1 :=
    match jget e "error" with
    | some err => (getString (jget err "message")).filter (fun s => s ≠ "")
    | none => none
  match m1 with
  | some m => some m
  | none => (getString (jget e "message")).filter (fun s => s ≠ "")

/-- The six agent engines. -/
inductive AgentEngine
  | claude
  | opencode
  | cursor
  | codex
  | qwen
  | droid
deriving DecidableEq, Repr

/-- Usage record: token counts default to zero and are always reported; cost
and duration stay absent when never seen. -/
structure AgentUsage where
  inputTokens : Int
  outputTokens : Int
  cost : Option Int := none
  durationMs : Option Int := none
deriving DecidableEq, Repr

/-- String trim, JavaScript semantics. -/
def trimString (s : String) : String := String.mk (trimJs s.data)

/-- Prefix strip of parseCodexMessage: one leading occurrence of the literal
task-completed sentence followed by whitespace is removed. -/
def stripCodexPrefix (s : List Char) : List Char :=
  match s with
  | c :: rest =>
    if (c = 'T' ∨ c = 't') ∧ rest.take 27 = "ask completed successfully.".data then
      (rest.drop 27).dropWhile isJsSpace
    else c :: rest
  | [] => []

/-- parseCodexMessage of single.ts over the modelled last-message file
content: empty when the path or file is absent, otherwise the stripped and
trimmed file text. -/
def parseCodexMessage : Option String → String
  | none => ""
  | some text => String.mk (trimJs (stripCodexPrefix text.data))

/-- Accumulator of parseOpenCodeOutput. -/
structure OpenCodeAcc where
  parts : List String
  usage : AgentUsage
  cost : Option Int
deriving Repr

/-- Event step of parseOpenCodeOutput: text events contribute their nonempty
part text; step-finish events overwrite token counts and cost. -/
def openCodeStep (acc : OpenCodeAcc) (e : Json) : OpenCodeAcc :=
  match getString (jget e "type") with
  | some "text" =>
    match (getString (jget e "part" |>.bind (fun p => jget p "text"))).filter (fun s => s ≠ "") with
    | some t => { acc with parts := acc.parts ++ [t] }
    | none => acc
  | some "step_finish" =>
    match jget e "part" with
    | some part =>
      let tokens := jget part "tokens"
      let input := getNumber (tokens.bind (fun t => jget t "input"))
      let output := getNumber (tokens.bind (fun t => jget t "output"))
      let costv := getNumber (jget part "cost")
      { acc with
        usage :=
          { acc.usage with
            inputTokens := input.getD acc.usage.inputTokens
            outputTokens := output.getD acc.usage.outputTokens }
        cost := match costv with | some c => some c | none => acc.cost }
    | none => acc
  | _ => acc

/-- parseOpenCodeOutput of single.ts: concatenated text parts (trimmed) and
the last step-finish usage. -/
def parseOpenCodeOutput (events : List Json) : String × AgentUsage :=
  let acc := events.foldl openCodeStep ⟨[], ⟨0, 0, none, none⟩, none⟩
  (trimString (String.join acc.parts),
    match acc.cost with
    | some c => { acc.usage with cost := some c }
    | none => acc.usage)

/-- Accumulator of parseStreamJsonResult. -/
structure StreamAcc where
  response : String
  usage : AgentUsage
  durationMs : Option Int
deriving Repr

/-- Texts of an assistant message content array: the nonempty string text
properties of its record items. -/
def assistantTexts (items : List Json) : List String :=
  items.filterMap (fun item => (getString (jget item "text")).filter (fun s => s ≠ ""))

/-- Event step of parseStreamJsonResult: result events supply response,
token usage and duration; cursor recovers a missing response from assistant
messages; droid prefers a completion event's final text and duration. -/
def streamStep (engine : AgentEngine) (acc : StreamAcc) (e : Json) : StreamAcc :=
  let ty := getString (jget e "type")
  let acc1 :=
    if ty = some "result" then
      let result := (getString (jget e "result")).filter (fun s => s ≠ "")
      let usageValue := jget e "usage"
      let input := getNumber (usageValue.bind (fun u => jget u "input_tokens"))
      let output := getNumber (usageValue.bind (fun u => jget u "output_tokens"))
      let duration := getNumber (jget e "duration_ms")
      { acc with
        response := result.getD acc.response
        usage :=
          { acc.usage with
            inputTokens := input.getD acc.usage.inputTokens
            outputTokens := output.getD acc.usage.outputTokens }
        durationMs := match duration with | some d => some d | none => acc.durationMs }
    else acc
  let acc2 :=
    if engine = .cursor ∧ ty = some "assistant" then
      match jget e "message" with
      | some message =>
        match jget message "content" with
        | some (.str content) =>
          { acc1 with response := if acc1.response = "" then content else acc1.response }
        | some (.arr items) =>
          let texts := assistantTexts items
          if texts ≠ [] ∧ acc1.response = "" then
            { acc1 with response := String.join texts }
          else acc1
        | _ => acc1
      | none => acc1
    else acc1
  if engine = .droid ∧ ty = some "completion" then
    let finalText := (getString (jget e "finalText")).filter (fun s => s ≠ "")
    let duration := getNumber (jget e "durationMs")
    { acc2 with
      response := finalText.getD acc2.response
      durationMs := match duration with | some d => some d | none => acc2.durationMs }
  else acc2

/-- parseStreamJsonResult of single.ts. -/
def parseStreamJsonResult (events : List Json) (engine : AgentEngine) : String × AgentUsage :=
  let acc := events.foldl (streamStep engine) ⟨"", ⟨0, 0, none, none⟩, none⟩
  (trimString acc.response,
    match acc.durationMs with
    | some d => { acc.usage with durationMs := some d }
    | none => acc.usage)

/-- Parsed agent output record. -/
structure ParsedAgentOutput where
  response : String
  usage : AgentUsage
  error : Option String := none
deriving Repr

/-- Test for a decoded error event. -/
def isErrorEvent (e : Json) : Bool :=
  getString (jget e "type") = some "error"

/-- parseAgentOutput of single.ts: the first decoded error event aborts with
its message (or the generic agent-error message); otherwise the output is
parsed per engine. -/
def parseAgentOutput (engine : AgentEngine) (events : List Json)
    (codexMsg : Option String) : ParsedAgentOutput :=
  match events.find? isErrorEvent with
  | some e => ⟨"", ⟨0, 0, none, none⟩, some ((readErrorMessage e).getD "Agent error")⟩
  | none =>
    match engine with
    | .opencode =>
      let r := parseOpenCodeOutput events
      ⟨r.1, r.2, none⟩
    | .codex => ⟨parseCodexMessage codexMsg, ⟨0, 0, none, none⟩, none⟩
    | _ =>
      let r := parseStreamJsonResult events engine
      ⟨r.1, r.2, none⟩

/-- ensureEngine of single.ts. -/
def ensureEngine : Option AgentEngine → AgentEngine
  | none => .claude
  | some e => e

/-- One agent invocation as observed by the executor: the decoded stdout
events, the raw captured streams, the exit code, and the content of the codex
last-message file when one was produced. -/
structure AgentRunResult where
  events : List Json
  stdout : String
  stderr : String
  exitCode : Int
  codexMsg : Option String := none

/-- Result union of runSingleTask. -/
inductive RunSingleResponse where
  | ok (engine : AgentEngine) (attempts : Nat) (response : String) (usage : AgentUsage)
      (stdout stderr : String) (exitCode : Int)
  | error (engine : AgentEngine) (attempts : Nat) (message : String)
      (stdout stderr : String) (exitCode : Int)
  | dryRun (engine : AgentEngine) (prompt : String)

/-- Retry loop of runSingleTask: fuel counts the attempts still allowed; the
attempt counter, last error and last captured process output thread through
exactly as the mutable locals do.  The runner is the injected agent
invocation, indexed by attempt number. -/
def runAttemptsLoop (engine : AgentEngine) (runner : Nat → AgentRunResult) :
    Nat → Nat → String → String × String × Int → RunSingleResponse
  | 0, attempts, lastError, last =>
    .error engine attempts (if lastError = "" then "Task failed" else lastError)
      last.1 last.2.1 last.2.2
  | fuel + 1, attempts, _, _ =>
    let a := attempts + 1
    let r := runner a
    let parsed := parseAgentOutput engine r.events r.codexMsg
    match parsed.error with
    | some e => runAttemptsLoop engine runner fuel a e (r.stdout, r.stderr, r.exitCode)
    | none =>
      if r.exitCode ≠ 0 then
        runAttemptsLoop engine runner fuel a ("Agent exited with code " ++ toString r.exitCode)
          (r.stdout, r.stderr, r.exitCode)
      else if parsed.response = "" then
        runAttemptsLoop engine runner fuel a "Empty response from agent"
          (r.stdout, r.stderr, r.exitCode)
      else
        .ok engine a parsed.response parsed.usage r.stdout r.stderr r.exitCode

/-- Options of runSingleTask that steer its control flow; the prompt inputs
are composed outside the loop and passed through. -/
structure RunSingleOptions where
  engine : Option AgentEngine := none
  dryRun : Bool := false
  maxRetries : Option Nat := none

/-- runSingleTask of single.ts: dry runs return the prompt without side
effects; otherwise the retry loop runs with the resolved engine and retry
bound (default three) starting from an empty last error and an exit-code-one
placeholder process output. -/
def runSingleTask (opts : RunSingleOptions) (prompt : String)
    (runner : Nat → AgentRunResult) : RunSingleResponse :=
  let engine := ensureEngine opts.engine
  let maxRetries := opts.maxRetries.getD 3
  if opts.dryRun then .dryRun engine prompt
  else runAttemptsLoop engine runner maxRetries 0 "" ("", "", 1)

/-! ### Task-source selection and file completion (src/core/tasks/source.ts) -/

/-- The three task-source back ends. -/
inductive TaskSourceType
  | markdown
  | yaml
  | github
deriving DecidableEq, Repr

/-- Options accepted by the task-source functions. -/
structure TaskSourceOptions where
  prd : Option String := none
  yaml : Option String := none
  github : Option String := none
  githubLabel : Option String := none
  cwd : Option String := none
deriving Repr

/-- Result union of completeTask. -/
inductive TasksCompleteOutcome where
  | updated (source : TaskSourceType) (task : String) (updated : String)
  | alreadyComplete (source : TaskSourceType) (task : String)
  | notFound (source : TaskSourceType) (task : String)
  | error (source : TaskSourceType) (task : String) (message : String)
deriving DecidableEq, Repr

/-- File system state: contents by path, none for a missing file. -/
def FileSystem : Type := String → Option String

/-- Bun.write: create or overwrite one path. -/
def fsWrite (fs : FileSystem) (path content : String) : FileSystem :=
  fun p => if p = path then some content else fs p

/-- Absolute-path test, POSIX form, as the paths the code builds. -/
def isAbsolutePath (p : String) : Bool := p.startsWith "/"

/-- resolvePath of source.ts; the platform path join is modelled as plain
separator concatenation, faithful for the separator-free relative path and
directory arguments the code passes. -/
def resolvePath (p cwd : String) : String :=
  if isAbsolutePath p then p else cwd ++ "/" ++ p

/-- readFileIfExists of source.ts. -/
def readFileIfExists (fs : FileSystem) (path : String) : Option String := fs path

/-- completeTask of source.ts over the modelled file system.  The GitHub
back end delegates to the external issue-tracker command and touches no file;
its outcome arrives as the injected ghOutcome.  For the file back ends the
source file is read (a missing or empty read reports a missing-file error),
the pure completion runs, and only an updated status writes the new content
back to the resolved path. -/
def completeTask (fs : FileSystem) (task : String) (options : TaskSourceOptions)
    (processCwd : String) (ghOutcome : TasksCompleteOutcome) :
    TasksCompleteOutcome × FileSystem :=
  let cwd := options.cwd.getD processCwd
  match options.github with
  | some _ => (ghOutcome, fs)
  | none =>
    match options.yaml with
    | some y =>
      let path := resolvePath y cwd
      match readFileIfExists fs path with
      | none => (.error .yaml task ("Missing task source file: " ++ path), fs)
      | some contents =>
        if contents = "" then
          (.error .yaml task ("Missing task source file: " ++ path), fs)
        else
          let r := completeYamlTask contents task
          match r.status with
          | .updated => (.updated .yaml task r.updated, fsWrite fs path r.updated)
          | .alreadyComplete => (.alreadyComplete .yaml task, fs)
          | .notFound => (.notFound .yaml task, fs)
    | none =>
      let path := resolvePath (options.prd.getD "PRD.md") cwd
      match readFileIfExists fs path with
      | none => (.error .markdown task ("Missing task source file: " ++ path), fs)
      | some contents =>
        if contents = "" then
          (.error .markdown task ("Missing task source file: " ++ path), fs)
        else
          let r := completeMarkdownTask contents task
          match r.status with
          | .updated => (.updated .markdown task r.updated, fsWrite fs path r.updated)
          | .alreadyComplete => (.alreadyComplete .markdown task, fs)
          | .notFound => (.notFound .markdown task, fs)

/-! ### The PRD run (src/core/prd.ts) -/

/-- createUsageTotals of prd.ts. -/
def createUsageTotals : AgentUsage := ⟨0, 0, none, none⟩

/-- addUsageTotals of prd.ts: token counts add; cost and duration add when
the incoming usage reports them (starting from zero when the total had none)
and keep the total's previous state otherwise. -/
def addUsageTotals (totals usage : AgentUsage) : AgentUsage :=
  { inputTokens := totals.inputTokens + usage.inputTokens
    outputTokens := totals.outputTokens + usage.outputTokens
    cost :=
      match usage.cost with
      | some c => some (totals.cost.getD 0 + c)
      | none => totals.cost
    durationMs :=
      match usage.durationMs with
      | some d => some (totals.durationMs.getD 0 + d)
      | none => totals.durationMs }

/-- ensureMaxIterations of prd.ts: an absent bound is unlimited (none), a
present one is clamped below by zero. -/
def ensureMaxIterations : Option Int → Option Nat
  | none => none
  | some v => some (max 0 v).toNat

/-- Run record of one task in a PRD run. -/
structure PrdRunTask where
  task : String
  source : TaskSourceType
  succeeded : Bool
  attempts : Nat
  response : Option String := none
  error : Option String := none
deriving DecidableEq, Repr

/-- A run record together with the task's original source index, as carried
by the parallel scheduler. -/
structure IndexedRunTask where
  run : PrdRunTask
  index : Nat
deriving DecidableEq, Repr

/-- The result-ordering step of runParallelTasks: flatten the group results
and stable-sort by original index. -/
def sortParallelTasks (results : List (List IndexedRunTask)) : List IndexedRunTask :=
  results.flatten.mergeSort (fun a b => decide (a.index ≤ b.index))

/-- Failure stages of a PRD run. -/
inductive PrdStage
  | taskSource
  | agent
  | complete
  | pr
  | merge
deriving DecidableEq, Repr

/-- Stop reasons of a successful PRD run. -/
inductive StopReason
  | noTasks
  | maxIterationsReached
deriving DecidableEq, Repr

/-- One pre-flight requirement failure. -/
structure RequirementFailure where
  requirement : String
  message : String
deriving DecidableEq, Repr

/-- Result of checkPrdRequirements (a filesystem inspection, injected). -/
inductive PrdRequirementsResult
  | ok
  | error (failures : List RequirementFailure)
deriving Repr

/-- Result union of runPrd. -/
inductive RunPrdResponse where
  | ok (iterations completed : Nat) (stopped : StopReason) (tasks : List PrdRunTask)
      (usage : AgentUsage)
  | stageError (stage : PrdStage) (message : String) (iterations : Nat)
      (tasks : List PrdRunTask) (task : Option String) (usage : AgentUsage)
  | requirementsFailed (failures : List RequirementFailure)
deriving DecidableEq, Repr

/-- Result union of getNextTask as consumed by the loop. -/
inductive NextResult
  | ok (text : String) (source : TaskSourceType)
  | empty (source : TaskSourceType)
  | error (source : TaskSourceType) (message : Option String)

/-- Completion outcome as consumed by the loop. -/
inductive CompleteStatusResult
  | updated
  | alreadyComplete
  | notFound
  | error (message : String)

/-- Options of runPrd that steer its control flow. -/
structure RunPrdOptions where
  maxIterations : Option Int := none
  parallel : Bool := false
  branchPerTask : Bool := false
  createPr : Bool := false
  draftPr : Bool := false

/-- External collaborators of runPrd, injected as in the code's dependency
parameter: the pre-flight check outcome, the per-iteration task source,
executor, completion and pull-request calls, and the outcome of the parallel
scheduler (whose concurrent execution is specified separately; its
result-ordering step is sortParallelTasks above). -/
structure PrdDeps where
  requirements : PrdRequirementsResult
  next : Nat → NextResult
  runner : Nat → RunSingleResponse
  complete : Nat → CompleteStatusResult
  pullRequest : Nat → Except String Unit
  parallelOutcome : RunPrdResponse

/-- Sequential loop of runPrd.  Fuel counts the iterations still allowed by
the resolved bound; iteration, completion and task accumulators thread as the
code's mutable locals; the injected calls are indexed by iteration.  Progress
logging and the branch-per-task manager are side effects without influence on
the returned value and are not modelled. -/
def runPrdLoop (deps : PrdDeps) (createPrWanted : Bool) :
    Nat → Nat → Nat → List PrdRunTask → AgentUsage → RunPrdResponse
  | 0, iterations, completed, tasks, usage =>
    .ok iterations completed .maxIterationsReached tasks usage
  | fuel + 1, iterations, completed, tasks, usage =>
    match deps.next iterations with
    | .empty _ => .ok iterations completed .noTasks tasks usage
    | .error _ msg =>
      .stageError .taskSource (msg.getD "Task source error") iterations tasks none usage
    | .ok text source =>
      let iterations1 := iterations + 1
      match deps.runner iterations with
      | .ok _ attempts response usageR _ _ _ =>
        let usage1 := addUsageTotals usage usageR
        let tasks1 := tasks ++ [⟨text, source, true, attempts, some response, none⟩]
        let completed1 := completed + 1
        (match deps.complete iterations with
        | .updated | .alreadyComplete =>
          if createPrWanted then
            match deps.pullRequest iterations with
            | .error m => .stageError .pr m iterations1 tasks1 (some text) usage1
            | .ok _ => runPrdLoop deps createPrWanted fuel iterations1 completed1 tasks1 usage1
          else runPrdLoop deps createPrWanted fuel iterations1 completed1 tasks1 usage1
        | .notFound =>
          .stageError .complete "Task not found in source" iterations1 tasks1 (some text) usage1
        | .error m => .stageError .complete m iterations1 tasks1 (some text) usage1)
      | .error _ attempts msg _ _ _ =>
        let tasks1 := tasks ++ [⟨text, source, false, attempts, none, some msg⟩]
        .stageError .agent msg iterations1 tasks1 (some text) usage
      | .dryRun _ _ =>
        let msg := "Dry run not supported for PRD execution"
        let tasks1 := tasks ++ [⟨text, source, false, 0, none, some msg⟩]
        .stageError .agent msg iterations1 tasks1 (some text) usage

/-- runPrd of prd.ts: requirement failures return structurally; a resolved
iteration bound of zero returns at once with empty accumulators; otherwise
the parallel outcome or the sequential loop.  The unbounded sequential loop
(no maxIterations given) admits no terminating functional model and is
outside every claim; it is mapped to none. -/
def runPrd (opts : RunPrdOptions) (deps : PrdDeps) : Option RunPrdResponse :=
  match deps.requirements with
  | .error failures => some (.requirementsFailed failures)
  | .ok =>
    match ensureMaxIterations opts.maxIterations with
    | some 0 => some (.ok 0 0 .maxIterationsReached [] createUsageTotals)
    | some (m + 1) =>
      if opts.parallel then some deps.parallelOutcome
      else some (runPrdLoop deps (opts.createPr || opts.draftPr) (m + 1) 0 0 [] createUsageTotals)
    | none =>
      if opts.parallel then some deps.parallelOutcome
      else none

/-! ### Accessors used by the claim statements -/

/-- Success test on an executor result. -/
def RunSingleResponse.isOk : RunSingleResponse → Bool
  | .ok .. => true
  | _ => false

/-- Error-status test on an executor result. -/
def RunSingleResponse.isErrorStatus : RunSingleResponse → Bool
  | .error .. => true
  | _ => false

/-- Attempt count of an executor result (zero for a dry run, which makes no
attempt). -/
def RunSingleResponse.attemptsOf : RunSingleResponse → Nat
  | .ok _ a _ _ _ _ _ => a
  | .error _ a _ _ _ _ => a
  | .dryRun _ _ => 0

/-- Captured stdout of an executor result. -/
def RunSingleResponse.stdoutOf : RunSingleResponse → String
  | .ok _ _ _ _ so _ _ => so
  | .error _ _ _ so _ _ => so
  | .dryRun _ _ => ""

/-- Captured stderr of an executor result. -/
def RunSingleResponse.stderrOf : RunSingleResponse → String
  | .ok _ _ _ _ _ st _ => st
  | .error _ _ _ _ st _ => st
  | .dryRun _ _ => ""

/-- Exit code of an executor result. -/
def RunSingleResponse.exitCodeOf : RunSingleResponse → Int
  | .ok _ _ _ _ _ _ ec => ec
  | .error _ _ _ _ _ ec => ec
  | .dryRun _ _ => 0

/-- Error message of an executor result. -/
def RunSingleResponse.errorMsgOf : RunSingleResponse → String
  | .error _ _ m _ _ _ => m
  | _ => ""

/-- Updated-status test on a completion outcome. -/
def TasksCompleteOutcome.isUpdated : TasksCompleteOutcome → Bool
  | .updated .. => true
  | _ => false

/-- The resolved file path of the selected markdown or yaml task source, as
selectSource computes it. -/
def taskSourcePath (options : TaskSourceOptions) (processCwd : String) : String :=
  let cwd := options.cwd.getD processCwd
  match options.yaml with
  | some y => resolvePath y cwd
  | none => resolvePath (options.prd.getD "PRD.md") cwd

/-- Concrete collaborators for the zero-iteration witness. -/
def zeroIterDeps : PrdDeps where
  requirements := .ok
  next := fun _ => .empty .markdown
  runner := fun _ => .dryRun .claude ""
  complete := fun _ => .updated
  pullRequest := fun _ => .ok ()
  parallelOutcome := .ok 0 0 .noTasks [] createUsageTotals

/-- Second set of concrete collaborators for the zero-iteration witness. -/
def zeroIterDeps2 : PrdDeps where
  requirements := .ok
  next := fun _ => .error .yaml none
  runner := fun _ => .error .claude 1 "boom" "" "" 1
  complete := fun _ => .notFound
  pullRequest := fun _ => .error "no pr"
  parallelOutcome := .stageError .merge "conflict" 0 [] none createUsageTotals

/-- Accumulation of per-task usages exactly as the run loops perform it:
a fold of addUsageTotals from createUsageTotals. -/
def sumUsages (usages : List AgentUsage) : AgentUsage :=
  usages.foldl addUsageTotals createUsageTotals

/-- Group results for the ordering witness: two groups finished out of source
order. -/
def orderWitnessResults : List (List IndexedRunTask) :=
  [[⟨⟨"C", .yaml, true, 1, some "rc", none⟩, 2⟩, ⟨⟨"D", .yaml, true, 1, some "rd", none⟩, 3⟩],
   [⟨⟨"A", .yaml, true, 1, some "ra", none⟩, 0⟩, ⟨⟨"B", .yaml, true, 1, some "rb", none⟩, 1⟩]]

/-- The same group results in completion order matching source order. -/
def orderWitnessResults2 : List (List IndexedRunTask) :=
  [[⟨⟨"A", .yaml, true, 1, some "ra", none⟩, 0⟩, ⟨⟨"B", .yaml, true, 1, some "rb", none⟩, 1⟩],
   [⟨⟨"C", .yaml, true, 1, some "rc", none⟩, 2⟩, ⟨⟨"D", .yaml, true, 1, some "rd", none⟩, 3⟩]]

/-- The attempted tasks in source order. -/
def orderWitnessSourceOrder : List IndexedRunTask :=
  [⟨⟨"A", .yaml, true, 1, some "ra", none⟩, 0⟩, ⟨⟨"B", .yaml, true, 1, some "rb", none⟩, 1⟩,
   ⟨⟨"C", .yaml, true, 1, some "rc", none⟩, 2⟩, ⟨⟨"D", .yaml, true, 1, some "rd", none⟩, 3⟩]

/-- Presence of a decoded error event in an attempt's output. -/
def hasErrorEvent (events : List Json) : Bool := events.any isErrorEvent

/-- Failure classification of one attempt, in the code's order: an
agent-reported error event, a nonzero exit code, an empty trimmed response;
none when the attempt succeeds. -/
def attemptError (engine : AgentEngine) (r : AgentRunResult) : Option String :=
  let parsed := parseAgentOutput engine r.events r.codexMsg
  match parsed.error with
  | some e => some e
  | none =>
    if r.exitCode ≠ 0 then some ("Agent exited with code " ++ toString r.exitCode)
    else if parsed.response = "" then some "Empty response from agent"
    else none

/-- Options for the success-criterion witness: two retries allowed. -/
def retryOpts : RunSingleOptions := { maxRetries := some 2 }

/-- Runner for the success-criterion witness: the first attempt exits one
with no output, the second emits a result event with the recovered response. -/
def retryRunner : Nat → AgentRunResult := fun k =>
  if k = 1 then ⟨[], "", "", 1, none⟩
  else
    ⟨[Json.obj [("type", Json.str "result"), ("result", Json.str "Recovered"),
        ("usage", Json.obj [("input_tokens", Json.num 1), ("output_tokens", Json.num 2)])]],
      "", "", 0, none⟩

/-- Options for the retry-bound witness. -/
def boundOpts : RunSingleOptions := { maxRetries := some 2 }

/-- Runner for the retry-bound witness: every attempt exits one. -/
def boundRunner : Nat → AgentRunResult := fun k =>
  ⟨[], "out" ++ toString k, "err" ++ toString k, 1, none⟩

/-- Second runner for the retry-bound witness, agreeing on the first two
attempts. -/
def boundRunner2 : Nat → AgentRunResult := fun k =>
  if k ≤ 2 then boundRunner k else ⟨[], "other", "other", 0, none⟩

/-- File system for the write witness: one markdown task file with the task
already checked. -/
def writeWitnessFs : FileSystem := fun p =>
  if p = "/w/PRD.md" then some "- [x] A" else none

/-- Test whether one line is a task line whose trimmed text equals the
(already trimmed) target: the loop's match condition. -/
def mdLineMatchesTitle (target : List Char) (l : List Char) : Bool :=
  match matchTaskLine l with
  | some m => decide (trimJs m.text = target)
  | none => false

/-- Test whether a block's trimmed title equals the (already trimmed)
target: the block loop's match condition. -/
def yamlBlockMatchesTitle (target : List Char) (b : TaskBlock) : Bool :=
  decide (trimJs (parseTaskBlock b).title = target)

/-- Rewriting of a completed line: the value region is replaced by the word
true keeping the remainder from the first hash on, or the whole line is
replaced when the completed-line pattern does not match. -/
def yamlCompletedNewLine (line ind : List Char) : List Char :=
  match matchCompletedLine line with
  | some g => g.1 ++ "true".data ++ g.2
  | none => ind ++ "completed: true".data

/-- Input for the source-preservation witness: an unchecked task line and a
YAML block without a completed line, both titled A. -/
def preserveWitnessContents : String := "- [ ] A\ntasks:\n  - title: A"

/-- The single task block of the algorithm witness. -/
def algoWitnessBlock : TaskBlock := ⟨1, ["  - title: A".data], "  ".data⟩

/-- Input for the duplicate-title witness: a checked and an unchecked task
line with the same title, and a completed and an uncompleted YAML block with
the same title. -/
def dupWitnessContents : String :=
  "- [x] T\n- [ ] T\ntasks:\n  - title: T\n    completed: true\n  - title: T"

/-- The first matching YAML block of the duplicate-title witness. -/
def dupWitnessBlock : TaskBlock :=
  ⟨3, ["  - title: T".data, "    completed: true".data], "  ".data⟩

/-! ### C7: the zero-iteration run -/

/-- C7: with passing pre-flight requirements and maxIterations zero, runPrd
returns ok with zero iterations and completions, the max-iterations stop
reason, no tasks, and zero token totals with cost and duration absent; the
result does not depend on the injected agent, task source, completion,
pull-request or parallel collaborators, so none of them is invoked. -/
theorem runPrd_zero_iterations (opts : RunPrdOptions) (deps deps2 : PrdDeps)
    (h0 : opts.maxIterations = some 0)
    (hreq : deps.requirements = PrdRequirementsResult.ok)
    (hreq2 : deps2.requirements = PrdRequirementsResult.ok) :
    runPrd opts deps =
      some (.ok 0 0 .maxIterationsReached [] ⟨0, 0, none, none⟩) ∧
    runPrd opts deps = runPrd opts deps2 := by
  unfold runPrd
  rw [hreq, hreq2, h0]
  simp [ensureMaxIterations, createUsageTotals]

/-- Witness for C7 at a concrete option record and two concrete dependency
records. -/
theorem runPrd_zero_iterations_witness :
    ({ maxIterations := some 0 : RunPrdOptions }.maxIterations = some 0) ∧
    (runPrd { maxIterations := some 0 } zeroIterDeps =
      some (.ok 0 0 .maxIterationsReached [] ⟨0, 0, none, none⟩) ∧
    runPrd { maxIterations := some 0 } zeroIterDeps =
      runPrd { maxIterations := some 0 } zeroIterDeps2) :=
  ⟨rfl, runPrd_zero_iterations { maxIterations := some 0 } zeroIterDeps zeroIterDeps2
    rfl rfl rfl⟩

/-! ### C8: usage additivity -/

theorem foldl_addUsage_inputTokens (usages : List AgentUsage) (init : AgentUsage) :
    (usages.foldl addUsageTotals init).inputTokens =
      init.inputTokens + (usages.map AgentUsage.inputTokens).sum := by
  induction usages generalizing init with
  | nil => simp
  | cons u rest ih => simp [ih, addUsageTotals]; ring

theorem foldl_addUsage_outputTokens (usages : List AgentUsage) (init : AgentUsage) :
    (usages.foldl addUsageTotals init).outputTokens =
      init.outputTokens + (usages.map AgentUsage.outputTokens).sum := by
  induction usages generalizing init with
  | nil => simp
  | cons u rest ih => simp [ih, addUsageTotals]; ring

theorem foldl_addUsage_cost (usages : List AgentUsage) (init : AgentUsage) :
    (usages.foldl addUsageTotals init).cost =
      if usages.filterMap AgentUsage.cost = [] then init.cost
      else some (init.cost.getD 0 + (usages.filterMap AgentUsage.cost).sum) := by
  induction usages generalizing init with
  | nil => simp
  | cons u rest ih =>
    cases hc : u.cost with
    | none =>
      simp only [List.foldl_cons, ih, List.filterMap_cons, hc]
      have : (addUsageTotals init u).cost = init.cost := by simp [addUsageTotals, hc]
      simp [this]
    | some c =>
      simp only [List.foldl_cons, ih, List.filterMap_cons, hc]
      have h1 : (addUsageTotals init u).cost = some (init.cost.getD 0 + c) := by
        simp [addUsageTotals, hc]
      by_cases hrest : rest.filterMap AgentUsage.cost = []
      · simp [hrest, h1]
      · simp only [hrest, if_false, h1]
        simp
        ring

theorem foldl_addUsage_durationMs (usages : List AgentUsage) (init : AgentUsage) :
    (usages.foldl addUsageTotals init).durationMs =
      if usages.filterMap AgentUsage.durationMs = [] then init.durationMs
      else some (init.durationMs.getD 0 + (usages.filterMap AgentUsage.durationMs).sum) := by
  induction usages generalizing init with
  | nil => simp
  | cons u rest ih =>
    cases hc : u.durationMs with
    | none =>
      simp only [List.foldl_cons, ih, List.filterMap_cons, hc]
      have : (addUsageTotals init u).durationMs = init.durationMs := by
        simp [addUsageTotals, hc]
      simp [this]
    | some c =>
      simp only [List.foldl_cons, ih, List.filterMap_cons, hc]
      have h1 : (addUsageTotals init u).durationMs = some (init.durationMs.getD 0 + c) := by
        simp [addUsageTotals, hc]
      by_cases hrest : rest.filterMap AgentUsage.durationMs = []
      · simp [hrest, h1]
      · simp only [hrest, if_false, h1]
        simp
        ring

/-- C8: accumulating per-task usages with addUsageTotals yields the
field-wise sums of the token counts, while cost and duration stay absent
exactly when no contributing task reported them and otherwise are the sums
over the contributing tasks. -/
theorem usage_totals_additive (usages : List AgentUsage) :
    (sumUsages usages).inputTokens = (usages.map AgentUsage.inputTokens).sum ∧
    (sumUsages usages).outputTokens = (usages.map AgentUsage.outputTokens).sum ∧
    (sumUsages usages).cost =
      (if usages.all (fun u => u.cost.isNone) then none
       else some ((usages.filterMap AgentUsage.cost).sum)) ∧
    (sumUsages usages).durationMs =
      (if usages.all (fun u => u.durationMs.isNone) then none
       else some ((usages.filterMap AgentUsage.durationMs).sum)) := by
  have hnilc : (usages.filterMap AgentUsage.cost = []) ↔
      usages.all (fun u => u.cost.isNone) = true := by
    simp [List.filterMap_eq_nil_iff, List.all_eq_true, Option.isNone_iff_eq_none]
  have hnild : (usages.filterMap AgentUsage.durationMs = []) ↔
      usages.all (fun u => u.durationMs.isNone) = true := by
    simp [List.filterMap_eq_nil_iff, List.all_eq_true, Option.isNone_iff_eq_none]
  refine ⟨?_, ?_, ?_, ?_⟩
  · simpa [sumUsages, createUsageTotals] using
      foldl_addUsage_inputTokens usages createUsageTotals
  · simpa [sumUsages, createUsageTotals] using
      foldl_addUsage_outputTokens usages createUsageTotals
  · rw [sumUsages, foldl_addUsage_cost]
    by_cases h : usages.filterMap AgentUsage.cost = []
    · simp [h, hnilc.mp h, createUsageTotals]
    · have : ¬ usages.all (fun u => u.cost.isNone) = true := fun hh => h (hnilc.mpr hh)
      simp [h, this, createUsageTotals]
  · rw [sumUsages, foldl_addUsage_durationMs]
    by_cases h : usages.filterMap AgentUsage.durationMs = []
    · simp [h, hnild.mp h, createUsageTotals]
    · have : ¬ usages.all (fun u => u.durationMs.isNone) = true := fun hh => h (hnild.mpr hh)
      simp [h, this, createUsageTotals]

/-! ### C6: parallel result ordering -/

/-- Stable sort by original index equals any strictly index-sorted listing of
the same tasks. -/
theorem mergeSortIndexed_eq_of_sorted (xs ts : List IndexedRunTask)
    (hperm : xs.Perm ts)
    (hsorted : ts.Pairwise (fun a b => a.index < b.index)) :
    xs.mergeSort (fun a b => decide (a.index ≤ b.index)) = ts := by
  have htrans : ∀ a b c : IndexedRunTask,
      decide (a.index ≤ b.index) = true → decide (b.index ≤ c.index) = true →
      decide (a.index ≤ c.index) = true := by
    intro a b c hab hbc
    simp only [decide_eq_true_eq] at *
    omega
  have htotal : ∀ a b : IndexedRunTask,
      (decide (a.index ≤ b.index) || decide (b.index ≤ a.index)) = true := by
    intro a b
    simp only [Bool.or_eq_true, decide_eq_true_eq]
    omega
  have hms : (xs.mergeSort (fun a b => decide (a.index ≤ b.index))).Perm ts :=
    (List.mergeSort_perm xs _).trans hperm
  have hle : (xs.mergeSort (fun a b => decide (a.index ≤ b.index))).Pairwise
      (fun a b => a.index ≤ b.index) :=
    (List.sorted_mergeSort htrans htotal xs).imp (by
      intro a b h
      exact of_decide_eq_true h)
  have hne_ts : ts.Pairwise (fun a b => a.index ≠ b.index) :=
    hsorted.imp (by intro a b h; omega)
  have hne : (xs.mergeSort (fun a b => decide (a.index ≤ b.index))).Pairwise
      (fun a b => a.index ≠ b.index) :=
    (List.Perm.pairwise_iff (fun h => h.symm) hms).mpr hne_ts
  have hlt : (xs.mergeSort (fun a b => decide (a.index ≤ b.index))).Pairwise
      (fun a b => a.index < b.index) :=
    (hle.and hne).imp (by intro a b h; omega)
  haveI : IsAntisymm IndexedRunTask (fun a b => a.index < b.index) :=
    ⟨by intro a b h1 h2; omega⟩
  exact List.eq_of_perm_of_sorted hms hlt hsorted

/-- C6: the parallel result ordering step returns the flattened group results
stable-sorted by each task's original source index: whenever the attempted
tasks listed in source order (strictly increasing indices) are a permutation
of the flattened group results, the returned list is exactly that
source-order listing, for any completion order of the groups; it is in
particular a permutation of the group results sorted by index. -/
theorem parallel_tasks_source_order (results results2 : List (List IndexedRunTask))
    (ts : List IndexedRunTask)
    (hperm : results.flatten.Perm ts)
    (hsorted : ts.Pairwise (fun a b => a.index < b.index))
    (hperm2 : results2.flatten.Perm results.flatten) :
    sortParallelTasks results = ts ∧
    sortParallelTasks results2 = ts ∧
    (sortParallelTasks results).Perm results.flatten ∧
    (sortParallelTasks results).Pairwise (fun a b => a.index ≤ b.index) := by
  refine ⟨mergeSortIndexed_eq_of_sorted _ _ hperm hsorted,
    mergeSortIndexed_eq_of_sorted _ _ (hperm2.trans hperm) hsorted,
    List.mergeSort_perm _ _, ?_⟩
  rw [sortParallelTasks, mergeSortIndexed_eq_of_sorted _ _ hperm hsorted]
  exact hsorted.imp (by intro a b h; omega)

/-- Witness for C6 at concrete out-of-order group results. -/
theorem parallel_tasks_source_order_witness :
    orderWitnessResults.flatten.Perm orderWitnessSourceOrder ∧
    orderWitnessSourceOrder.Pairwise (fun a b => a.index < b.index) ∧
    (sortParallelTasks orderWitnessResults = orderWitnessSourceOrder ∧
      sortParallelTasks orderWitnessResults2 = orderWitnessSourceOrder ∧
      (sortParallelTasks orderWitnessResults).Perm orderWitnessResults.flatten ∧
      (sortParallelTasks orderWitnessResults).Pairwise (fun a b => a.index ≤ b.index)) := by
  have h1 : orderWitnessResults.flatten.Perm orderWitnessSourceOrder := by
    simp only [orderWitnessResults, orderWitnessSourceOrder, List.flatten]
    decide
  have h2 : orderWitnessSourceOrder.Pairwise (fun a b => a.index < b.index) := by
    simp only [orderWitnessSourceOrder]
    decide
  have h3 : orderWitnessResults2.flatten.Perm orderWitnessResults.flatten := by
    simp only [orderWitnessResults, orderWitnessResults2, List.flatten]
    decide
  exact ⟨h1, h2, parallel_tasks_source_order orderWitnessResults orderWitnessResults2
    orderWitnessSourceOrder h1 h2 h3⟩

/-! ### C3 and C4: the executor retry loop -/

theorem option_filter_ne_empty (o : Option String) (m : String)
    (h : o.filter (fun s => s ≠ "") = some m) : m ≠ "" := by
  rcases o with _ | s
  · simp [Option.filter] at h
  · by_cases hs : s = ""
    · subst hs
      simp [Option.filter] at h
    · have hfil : (some s).filter (fun s => s ≠ "") = some s := by
        simp [Option.filter, hs]
      rw [hfil] at h
      cases h
      exact hs

theorem readErrorMessage_ne_empty (ev : Json) (m : String)
    (h : readErrorMessage ev = some m) : m ≠ "" := by
  unfold readErrorMessage at h
  rcases hj : jget ev "error" with _ | err <;> rw [hj] at h <;> simp only [] at h
  · exact option_filter_ne_empty _ _ h
  · rcases hf : (getString (jget err "message")).filter (fun s => s ≠ "") with _ | m2 <;>
      rw [hf] at h <;> simp only [] at h
    · exact option_filter_ne_empty _ _ h
    · cases h
      exact option_filter_ne_empty _ _ hf

theorem string_append_ne_empty_left (a b : String) (ha : a.data ≠ []) : a ++ b ≠ "" := by
  intro hc
  have : (a ++ b).data = [] := by rw [hc]
  rw [String.data_append] at this
  exact ha (List.append_eq_nil.mp this).1

theorem parseAgentOutput_error_ne_empty (engine : AgentEngine) (events : List Json)
    (codexMsg : Option String) (m : String)
    (h : (parseAgentOutput engine events codexMsg).error = some m) : m ≠ "" := by
  unfold parseAgentOutput at h
  rcases hf : events.find? isErrorEvent with _ | ev <;> rw [hf] at h
  · rcases engine <;> simp_all
  · simp only [] at h
    cases h
    rcases hr : readErrorMessage ev with _ | m2
    · decide
    · simpa using readErrorMessage_ne_empty ev m2 hr

theorem attemptError_ne_empty (engine : AgentEngine) (r : AgentRunResult) (m : String)
    (h : attemptError engine r = some m) : m ≠ "" := by
  unfold attemptError at h
  simp only [] at h
  rcases hpe : (parseAgentOutput engine r.events r.codexMsg).error with _ | e <;>
    rw [hpe] at h <;> simp only [] at h
  · split at h
    · cases h
      exact string_append_ne_empty_left _ _ (by decide)
    · split at h
      · cases h
        decide
      · cases h
  · cases h
    exact parseAgentOutput_error_ne_empty engine r.events r.codexMsg _ hpe

theorem runAttemptsLoop_succ (engine : AgentEngine) (runner : Nat → AgentRunResult)
    (fuel attempts : Nat) (lastErr : String) (last : String × String × Int) :
    runAttemptsLoop engine runner (fuel + 1) attempts lastErr last =
      (match attemptError engine (runner (attempts + 1)) with
      | none =>
        .ok engine (attempts + 1)
          (parseAgentOutput engine (runner (attempts + 1)).events
            (runner (attempts + 1)).codexMsg).response
          (parseAgentOutput engine (runner (attempts + 1)).events
            (runner (attempts + 1)).codexMsg).usage
          (runner (attempts + 1)).stdout (runner (attempts + 1)).stderr
          (runner (attempts + 1)).exitCode
      | some e =>
        runAttemptsLoop engine runner fuel (attempts + 1) e
          ((runner (attempts + 1)).stdout, (runner (attempts + 1)).stderr,
            (runner (attempts + 1)).exitCode)) := by
  rw [runAttemptsLoop, attemptError]
  rcases hpe : (parseAgentOutput engine (runner (attempts + 1)).events
      (runner (attempts + 1)).codexMsg).error with _ | e
  · by_cases hec : (runner (attempts + 1)).exitCode ≠ 0
    · simp [hpe, hec]
    · by_cases hresp : (parseAgentOutput engine (runner (attempts + 1)).events
          (runner (attempts + 1)).codexMsg).response = ""
      · simp [hpe, hec, hresp]
      · simp [hpe, hec, hresp]
  · simp [hpe]

theorem runAttemptsLoop_attempts_le (engine : AgentEngine) (runner : Nat → AgentRunResult) :
    ∀ (fuel attempts : Nat) (lastErr : String) (last : String × String × Int),
    (runAttemptsLoop engine runner fuel attempts lastErr last).attemptsOf ≤ attempts + fuel := by
  intro fuel
  induction fuel with
  | zero =>
    intro attempts lastErr last
    simp [runAttemptsLoop, RunSingleResponse.attemptsOf]
  | succ f ih =>
    intro attempts lastErr last
    rw [runAttemptsLoop_succ]
    cases hE : attemptError engine (runner (attempts + 1)) with
    | none => simp [RunSingleResponse.attemptsOf]
    | some e =>
      simp only []
      calc (runAttemptsLoop engine runner f (attempts + 1) e _).attemptsOf
          ≤ attempts + 1 + f := ih (attempts + 1) e _
        _ = attempts + (f + 1) := by omega

theorem runAttemptsLoop_ext (engine : AgentEngine) (runner runner2 : Nat → AgentRunResult) :
    ∀ (fuel attempts : Nat) (lastErr : String) (last : String × String × Int),
    (∀ k, attempts < k → k ≤ attempts + fuel → runner k = runner2 k) →
    runAttemptsLoop engine runner fuel attempts lastErr last =
      runAttemptsLoop engine runner2 fuel attempts lastErr last := by
  intro fuel
  induction fuel with
  | zero => intro attempts lastErr last _; simp [runAttemptsLoop]
  | succ f ih =>
    intro attempts lastErr last hagree
    have h1 : runner (attempts + 1) = runner2 (attempts + 1) :=
      hagree (attempts + 1) (by omega) (by omega)
    rw [runAttemptsLoop_succ, runAttemptsLoop_succ, h1]
    cases hE : attemptError engine (runner2 (attempts + 1)) with
    | none => simp
    | some e =>
      simp only []
      exact ih (attempts + 1) e _ (fun k hk1 hk2 => hagree k (by omega) (by omega))

theorem runAttemptsLoop_error_last (engine : AgentEngine) (runner : Nat → AgentRunResult) :
    ∀ (fuel attempts : Nat) (lastErr : String) (last : String × String × Int),
    1 ≤ fuel →
    (runAttemptsLoop engine runner fuel attempts lastErr last).isErrorStatus = true →
    ∃ e, attemptError engine (runner (attempts + fuel)) = some e ∧
      runAttemptsLoop engine runner fuel attempts lastErr last =
        .error engine (attempts + fuel) e (runner (attempts + fuel)).stdout
          (runner (attempts + fuel)).stderr (runner (attempts + fuel)).exitCode := by
  intro fuel
  induction fuel with
  | zero => intro _ _ _ h; omega
  | succ f ih =>
    intro attempts lastErr last _ herr
    rw [runAttemptsLoop_succ] at herr ⊢
    cases hE : attemptError engine (runner (attempts + 1)) with
    | none =>
      rw [hE] at herr
      simp [RunSingleResponse.isErrorStatus] at herr
    | some e =>
      rw [hE] at herr
      simp only [] at herr ⊢
      rcases Nat.eq_zero_or_pos f with hf | hf
      · subst hf
        refine ⟨e, by simpa using hE, ?_⟩
        have hne : e ≠ "" := attemptError_ne_empty engine (runner (attempts + 1)) e hE
        simp [runAttemptsLoop, hne]
      · have := ih (attempts + 1) e
          ((runner (attempts + 1)).stdout, (runner (attempts + 1)).stderr,
            (runner (attempts + 1)).exitCode) hf herr
        rcases this with ⟨e2, he2, heq⟩
        refine ⟨e2, ?_, ?_⟩
        · have : attempts + 1 + f = attempts + (f + 1) := by omega
          rwa [this] at he2
        · have harith : attempts + 1 + f = attempts + (f + 1) := by omega
          rw [heq, harith]

theorem runAttemptsLoop_isOk_iff (engine : AgentEngine) (runner : Nat → AgentRunResult) :
    ∀ (fuel attempts : Nat) (lastErr : String) (last : String × String × Int),
    (runAttemptsLoop engine runner fuel attempts lastErr last).isOk = true ↔
      ∃ k, attempts < k ∧ k ≤ attempts + fuel ∧ attemptError engine (runner k) = none := by
  intro fuel
  induction fuel with
  | zero =>
    intro attempts lastErr last
    simp only [runAttemptsLoop, RunSingleResponse.isOk]
    constructor
    · intro h; cases h
    · rintro ⟨k, hk1, hk2, _⟩; omega
  | succ f ih =>
    intro attempts lastErr last
    rw [runAttemptsLoop_succ]
    cases hE : attemptError engine (runner (attempts + 1)) with
    | none =>
      constructor
      · intro _; exact ⟨attempts + 1, by omega, by omega, hE⟩
      · intro _; simp [RunSingleResponse.isOk]
    | some e =>
      simp only []
      rw [ih (attempts + 1) e _]
      constructor
      · rintro ⟨k, hk1, hk2, hk3⟩; exact ⟨k, by omega, by omega, hk3⟩
      · rintro ⟨k, hk1, hk2, hk3⟩
        refine ⟨k, ?_, by omega, hk3⟩
        rcases Nat.eq_or_lt_of_le hk1 with heq | hlt
        · exfalso
          have hek : attempts + 1 = k := by omega
          rw [hek] at hE
          rw [hE] at hk3
          cases hk3
        · omega

theorem parseAgentOutput_error_none_iff (engine : AgentEngine) (events : List Json)
    (codexMsg : Option String) :
    (parseAgentOutput engine events codexMsg).error = none ↔ hasErrorEvent events = false := by
  constructor
  · intro h
    unfold parseAgentOutput at h
    rcases hf : events.find? isErrorEvent with _ | ev
    · rw [hasErrorEvent, List.any_eq_false]
      intro x hx
      simpa using List.find?_eq_none.mp hf x hx
    · rw [hf] at h
      simp at h
  · intro h
    have hf : events.find? isErrorEvent = none := by
      rw [← Option.not_isSome_iff_eq_none, List.find?_isSome]
      intro ⟨x, hx, hpx⟩
      rw [hasErrorEvent, List.any_eq_false] at h
      exact absurd hpx (by simpa using h x hx)
    unfold parseAgentOutput
    rw [hf]
    rcases engine <;> simp

theorem attemptError_none_iff (engine : AgentEngine) (r : AgentRunResult) :
    attemptError engine r = none ↔
      (hasErrorEvent r.events = false ∧ r.exitCode = 0 ∧
        (parseAgentOutput engine r.events r.codexMsg).response ≠ "") := by
  unfold attemptError
  simp only []
  rcases hpe : (parseAgentOutput engine r.events r.codexMsg).error with _ | e <;>
    simp only []
  · have hev : hasErrorEvent r.events = false :=
      (parseAgentOutput_error_none_iff engine r.events r.codexMsg).mp hpe
    by_cases hec : r.exitCode = 0
    · by_cases hresp : (parseAgentOutput engine r.events r.codexMsg).response = "" <;>
        simp [hec, hresp, hev]
    · simp [hec, hev]
  · constructor
    · intro h; cases h
    · rintro ⟨hev, _, _⟩
      have := (parseAgentOutput_error_none_iff engine r.events r.codexMsg).mpr hev
      rw [hpe] at this
      cases this

theorem attemptError_of_error_event (engine : AgentEngine) (r : AgentRunResult) (ev : Json)
    (h : r.events.find? isErrorEvent = some ev) :
    attemptError engine r = some ((readErrorMessage ev).getD "Agent error") := by
  unfold attemptError parseAgentOutput
  rw [h]

theorem attemptError_of_exit_code (engine : AgentEngine) (r : AgentRunResult)
    (hev : hasErrorEvent r.events = false) (hec : r.exitCode ≠ 0) :
    attemptError engine r = some ("Agent exited with code " ++ toString r.exitCode) := by
  have hpe : (parseAgentOutput engine r.events r.codexMsg).error = none :=
    (parseAgentOutput_error_none_iff engine r.events r.codexMsg).mpr hev
  unfold attemptError
  simp only []
  rw [hpe]
  simp [hec]

theorem attemptError_of_empty_response (engine : AgentEngine) (r : AgentRunResult)
    (hev : hasErrorEvent r.events = false) (hec : r.exitCode = 0)
    (hresp : (parseAgentOutput engine r.events r.codexMsg).response = "") :
    attemptError engine r = some "Empty response from agent" := by
  have hpe : (parseAgentOutput engine r.events r.codexMsg).error = none :=
    (parseAgentOutput_error_none_iff engine r.events r.codexMsg).mpr hev
  unfold attemptError
  simp only []
  rw [hpe]
  simp [hec, hresp]

/-- C3: the executor reports ok exactly when some attempt within the retry
bound yields output with no decoded error event, a zero exit code and a
nonempty trimmed response; an attempt failing those checks is classified, in
order, with the agent-reported message (the error event's message, else the
generic agent-error message), the exited-with-code message, or the
empty-response message, and an exhausted run reports the last attempt's
classification. -/
theorem runSingleTask_success_criterion (opts : RunSingleOptions) (prompt : String)
    (runner : Nat → AgentRunResult) (hdry : opts.dryRun = false) :
    ((runSingleTask opts prompt runner).isOk = true ↔
      ∃ k, 1 ≤ k ∧ k ≤ opts.maxRetries.getD 3 ∧
        hasErrorEvent (runner k).events = false ∧ (runner k).exitCode = 0 ∧
        (parseAgentOutput (ensureEngine opts.engine) (runner k).events
          (runner k).codexMsg).response ≠ "") ∧
    (∀ r : AgentRunResult, ∀ ev, r.events.find? isErrorEvent = some ev →
      attemptError (ensureEngine opts.engine) r =
        some ((readErrorMessage ev).getD "Agent error")) ∧
    (∀ r : AgentRunResult, hasErrorEvent r.events = false → r.exitCode ≠ 0 →
      attemptError (ensureEngine opts.engine) r =
        some ("Agent exited with code " ++ toString r.exitCode)) ∧
    (∀ r : AgentRunResult, hasErrorEvent r.events = false → r.exitCode = 0 →
      (parseAgentOutput (ensureEngine opts.engine) r.events r.codexMsg).response = "" →
      attemptError (ensureEngine opts.engine) r = some "Empty response from agent") ∧
    ((runSingleTask opts prompt runner).isErrorStatus = true →
      1 ≤ opts.maxRetries.getD 3 →
      (runSingleTask opts prompt runner).errorMsgOf =
        (attemptError (ensureEngine opts.engine)
          (runner (opts.maxRetries.getD 3))).getD "Task failed") := by
  have hrun : runSingleTask opts prompt runner =
      runAttemptsLoop (ensureEngine opts.engine) runner (opts.maxRetries.getD 3) 0 ""
        ("", "", 1) := by
    simp [runSingleTask, hdry]
  refine ⟨?_, ?_, ?_, ?_, ?_⟩
  · rw [hrun, runAttemptsLoop_isOk_iff]
    constructor
    · rintro ⟨k, hk1, hk2, hk3⟩
      rw [attemptError_none_iff] at hk3
      exact ⟨k, by omega, by simpa using hk2, hk3.1, hk3.2.1, hk3.2.2⟩
    · rintro ⟨k, hk1, hk2, hk3, hk4, hk5⟩
      exact ⟨k, by omega, by simpa using hk2, (attemptError_none_iff _ _).mpr ⟨hk3, hk4, hk5⟩⟩
  · intro r ev h
    exact attemptError_of_error_event _ r ev h
  · intro r hev hec
    exact attemptError_of_exit_code _ r hev hec
  · intro r hev hec hresp
    exact attemptError_of_empty_response _ r hev hec hresp
  · intro herr hpos
    rw [hrun] at herr ⊢
    obtain ⟨e, he, heq⟩ := runAttemptsLoop_error_last (ensureEngine opts.engine) runner
      (opts.maxRetries.getD 3) 0 "" ("", "", 1) hpos herr
    rw [heq]
    simp only [Nat.zero_add] at he
    rw [he]
    rfl

/-- Witness for C3: with the retry runner the executor reports ok, through
the success criterion applied at the second attempt. -/
theorem runSingleTask_success_criterion_witness :
    retryOpts.dryRun = false ∧ (runSingleTask retryOpts "p" retryRunner).isOk = true :=
  ⟨rfl, (runSingleTask_success_criterion retryOpts "p" retryRunner rfl).1.mpr
    ⟨2, by decide, by decide, by decide, by decide, by decide⟩⟩

/-- C4: the executor makes at most maxRetries attempts: the reported attempt
count is bounded by the resolved retry bound, the result depends only on the
runner's behavior on attempts one through maxRetries, and an exhausted run
carries the stdout, stderr and exit code of the last attempt's process. -/
theorem runSingleTask_retry_bound (opts : RunSingleOptions) (prompt : String)
    (runner runner2 : Nat → AgentRunResult) (hdry : opts.dryRun = false) :
    (runSingleTask opts prompt runner).attemptsOf ≤ opts.maxRetries.getD 3 ∧
    ((∀ k, 1 ≤ k → k ≤ opts.maxRetries.getD 3 → runner k = runner2 k) →
      runSingleTask opts prompt runner = runSingleTask opts prompt runner2) ∧
    ((runSingleTask opts prompt runner).isErrorStatus = true →
      1 ≤ opts.maxRetries.getD 3 →
      (runSingleTask opts prompt runner).stdoutOf = (runner (opts.maxRetries.getD 3)).stdout ∧
      (runSingleTask opts prompt runner).stderrOf = (runner (opts.maxRetries.getD 3)).stderr ∧
      (runSingleTask opts prompt runner).exitCodeOf =
        (runner (opts.maxRetries.getD 3)).exitCode) := by
  have hrun : runSingleTask opts prompt runner =
      runAttemptsLoop (ensureEngine opts.engine) runner (opts.maxRetries.getD 3) 0 ""
        ("", "", 1) := by
    simp [runSingleTask, hdry]
  have hrun2 : runSingleTask opts prompt runner2 =
      runAttemptsLoop (ensureEngine opts.engine) runner2 (opts.maxRetries.getD 3) 0 ""
        ("", "", 1) := by
    simp [runSingleTask, hdry]
  refine ⟨?_, ?_, ?_⟩
  · rw [hrun]
    simpa using runAttemptsLoop_attempts_le (ensureEngine opts.engine) runner
      (opts.maxRetries.getD 3) 0 "" ("", "", 1)
  · intro hagree
    rw [hrun, hrun2]
    exact runAttemptsLoop_ext (ensureEngine opts.engine) runner runner2
      (opts.maxRetries.getD 3) 0 "" ("", "", 1)
      (fun k hk1 hk2 => hagree k (by omega) (by simpa using hk2))
  · intro herr hpos
    rw [hrun] at herr ⊢
    obtain ⟨e, _, heq⟩ := runAttemptsLoop_error_last (ensureEngine opts.engine) runner
      (opts.maxRetries.getD 3) 0 "" ("", "", 1) hpos herr
    rw [heq]
    simp only [Nat.zero_add]
    exact ⟨rfl, rfl, rfl⟩

/-- Witness for C4: with the always-failing runner the attempt count stays
within the bound of two, the run agrees with a runner that matches on the
first two attempts, and the exhausted error carries the second attempt's
process output. -/
theorem runSingleTask_retry_bound_witness :
    boundOpts.dryRun = false ∧
    ((runSingleTask boundOpts "p" boundRunner).attemptsOf ≤ boundOpts.maxRetries.getD 3 ∧
      ((∀ k, 1 ≤ k → k ≤ boundOpts.maxRetries.getD 3 → boundRunner k = boundRunner2 k) →
        runSingleTask boundOpts "p" boundRunner = runSingleTask boundOpts "p" boundRunner2) ∧
      ((runSingleTask boundOpts "p" boundRunner).isErrorStatus = true →
        1 ≤ boundOpts.maxRetries.getD 3 →
        (runSingleTask boundOpts "p" boundRunner).stdoutOf =
          (boundRunner (boundOpts.maxRetries.getD 3)).stdout ∧
        (runSingleTask boundOpts "p" boundRunner).stderrOf =
          (boundRunner (boundOpts.maxRetries.getD 3)).stderr ∧
        (runSingleTask boundOpts "p" boundRunner).exitCodeOf =
          (boundRunner (boundOpts.maxRetries.getD 3)).exitCode)) :=
  ⟨rfl, runSingleTask_retry_bound boundOpts "p" boundRunner boundRunner2 rfl⟩

/-! ### C9: completion writes only on update -/

/-- C9: for the markdown and yaml back ends, completeTask leaves the file
system untouched unless the completion status is updated, and in every case
no path other than the resolved task-source path changes. -/
theorem completeTask_writes_only_on_update (fs : FileSystem) (task : String)
    (options : TaskSourceOptions) (processCwd : String) (gh : TasksCompleteOutcome)
    (hg : options.github = none) :
    ((completeTask fs task options processCwd gh).1.isUpdated = false →
      (completeTask fs task options processCwd gh).2 = fs) ∧
    (∀ p, p ≠ taskSourcePath options processCwd →
      (completeTask fs task options processCwd gh).2 p = fs p) := by
  unfold completeTask taskSourcePath
  rw [hg]
  simp only []
  rcases hy : options.yaml with _ | y <;> simp only []
  · rcases hr : readFileIfExists fs
        (resolvePath (options.prd.getD "PRD.md") (options.cwd.getD processCwd)) with _ | c <;>
      simp only []
    · simp
    · split_ifs with hc
      · simp
      · rcases hs : (completeMarkdownTask c task).status <;> simp only []
        · refine ⟨fun hnu => ?_, fun p hp => ?_⟩
          · simp [TasksCompleteOutcome.isUpdated] at hnu
          · simp only [fsWrite]
            rw [if_neg hp]
        · simp
        · simp
  · rcases hr : readFileIfExists fs (resolvePath y (options.cwd.getD processCwd)) with _ | c <;>
      simp only []
    · simp
    · split_ifs with hc
      · simp
      · rcases hs : (completeYamlTask c task).status <;> simp only []
        · refine ⟨fun hnu => ?_, fun p hp => ?_⟩
          · simp [TasksCompleteOutcome.isUpdated] at hnu
          · simp only [fsWrite]
            rw [if_neg hp]
        · simp
        · simp

/-- Witness for C9 applied at a file system whose only task is already
complete: the completion does not write. -/
theorem completeTask_writes_only_on_update_witness :
    ({ prd := none, cwd := some "/w" : TaskSourceOptions }.github = none) ∧
    (((completeTask writeWitnessFs "A" { prd := none, cwd := some "/w" } "/x"
        (.notFound .github "A")).1.isUpdated = false →
      (completeTask writeWitnessFs "A" { prd := none, cwd := some "/w" } "/x"
        (.notFound .github "A")).2 = writeWitnessFs) ∧
    (∀ p, p ≠ taskSourcePath { prd := none, cwd := some "/w" } "/x" →
      (completeTask writeWitnessFs "A" { prd := none, cwd := some "/w" } "/x"
        (.notFound .github "A")).2 p = writeWitnessFs p)) :=
  ⟨rfl, completeTask_writes_only_on_update writeWitnessFs "A"
    { prd := none, cwd := some "/w" } "/x" (.notFound .github "A") rfl⟩

/-! ### Characterization of the Markdown completion loop -/

theorem completeMdLines_spec (target : List Char) :
    ∀ lines : List (List Char),
    (match lines.findIdx? (mdLineMatchesTitle target) with
    | none => completeMdLines target lines = (.notFound, lines)
    | some i =>
      ∃ m, matchTaskLine (lines.getD i []) = some m ∧ trimJs m.text = target ∧
        (Char.toLower m.statusChar = 'x' →
          completeMdLines target lines = (.alreadyComplete, lines)) ∧
        (Char.toLower m.statusChar ≠ 'x' →
          completeMdLines target lines =
            (.updated, lines.set i (m.prefixPart ++ '[' :: 'x' :: ']' :: ' ' :: m.text)))) := by
  intro lines
  induction lines with
  | nil => simp [completeMdLines, List.findIdx?_nil]
  | cons l ls ih =>
    rcases hm : matchTaskLine l with _ | m
    · have hml : mdLineMatchesTitle target l = false := by
        simp [mdLineMatchesTitle, hm]
      have hred : completeMdLines target (l :: ls) =
          ((completeMdLines target ls).1, l :: (completeMdLines target ls).2) := by
        simp [completeMdLines, hm]
      rw [List.findIdx?_cons, hml]
      simp only [Bool.false_eq_true, if_false, List.findIdx?_succ]
      rcases hf : ls.findIdx? (mdLineMatchesTitle target) with _ | i <;>
        rw [hf] at ih <;> simp only [] at ih <;>
        simp only [Option.map_none', Option.map_some']
      · rw [hred, ih]
      · obtain ⟨m, hm1, hm2, hm3, hm4⟩ := ih
        refine ⟨m, by simpa [List.getD_cons_succ] using hm1, hm2, ?_, ?_⟩
        · intro hx
          rw [hred, hm3 hx]
        · intro hx
          rw [hred, hm4 hx]
          simp [List.set_cons_succ]
    · by_cases ht : trimJs m.text = target
      · have hml : mdLineMatchesTitle target l = true := by
          simp [mdLineMatchesTitle, hm, ht]
        rw [List.findIdx?_cons, hml]
        simp only [if_true]
        refine ⟨m, by simpa using hm, ht, ?_, ?_⟩
        · intro hx
          simp [completeMdLines, hm, ht, hx]
        · intro hx
          simp [completeMdLines, hm, ht, hx]
      · have hml : mdLineMatchesTitle target l = false := by
          simp [mdLineMatchesTitle, hm, ht]
        have hred : completeMdLines target (l :: ls) =
            ((completeMdLines target ls).1, l :: (completeMdLines target ls).2) := by
          simp [completeMdLines, hm, ht]
        rw [List.findIdx?_cons, hml]
        simp only [Bool.false_eq_true, if_false, List.findIdx?_succ]
        rcases hf : ls.findIdx? (mdLineMatchesTitle target) with _ | i <;>
          rw [hf] at ih <;> simp only [] at ih <;>
          simp only [Option.map_none', Option.map_some']
        · rw [hred, ih]
        · obtain ⟨m2, hm1, hm2, hm3, hm4⟩ := ih
          refine ⟨m2, by simpa [List.getD_cons_succ] using hm1, hm2, ?_, ?_⟩
          · intro hx
            rw [hred, hm3 hx]
          · intro hx
            rw [hred, hm4 hx]
            simp [List.set_cons_succ]

/-! ### Characterization of the YAML completion loop -/

theorem completeYamlBlocks_spec (lines : List (List Char)) (target : List Char) :
    ∀ blocks : List TaskBlock,
    (match blocks.find? (yamlBlockMatchesTitle target) with
    | none => completeYamlBlocks lines target blocks = (.notFound, lines)
    | some b =>
      ((parseTaskBlock b).completed = true →
        completeYamlBlocks lines target blocks = (.alreadyComplete, lines)) ∧
      ((parseTaskBlock b).completed = false →
        (∀ off, (parseTaskBlock b).completedLineOffset = some off →
          completeYamlBlocks lines target blocks =
            (.updated, lines.set (b.startIndex + off)
              (yamlCompletedNewLine (lines.getD (b.startIndex + off) [])
                (parseTaskBlock b).propertyIndent))) ∧
        ((parseTaskBlock b).completedLineOffset = none →
          completeYamlBlocks lines target blocks =
            (.updated, lines.insertIdx
              (b.startIndex + (parseTaskBlock b).titleLineOffset.getD 0 + 1)
              ((parseTaskBlock b).propertyIndent ++ "completed: true".data))))) := by
  intro blocks
  induction blocks with
  | nil => simp [completeYamlBlocks]
  | cons b bs ih =>
    by_cases hmatch : trimJs (parseTaskBlock b).title = target
    · have hbm : yamlBlockMatchesTitle target b = true := by
        simp [yamlBlockMatchesTitle, hmatch]
      rw [List.find?_cons, hbm]
      simp only []
      refine ⟨?_, ?_⟩
      · intro hc
        simp [completeYamlBlocks, hmatch, hc]
      · intro hc
        refine ⟨?_, ?_⟩
        · intro off hoff
          simp [completeYamlBlocks, hmatch, hc, hoff, yamlCompletedNewLine]
        · intro hoff
          simp [completeYamlBlocks, hmatch, hc, hoff]
    · have hbm : yamlBlockMatchesTitle target b = false := by
        simp [yamlBlockMatchesTitle, hmatch]
      rw [List.find?_cons, hbm]
      have hred : completeYamlBlocks lines target (b :: bs) =
          completeYamlBlocks lines target bs := by
        simp [completeYamlBlocks, hmatch]
      simp only []
      rcases hf : bs.find? (yamlBlockMatchesTitle target) with _ | b2 <;>
        rw [hf] at ih <;> simp only [] at ih ⊢
      · rw [hred, ih]
      · obtain ⟨h1, h2⟩ := ih
        refine ⟨?_, ?_⟩
        · intro hc
          rw [hred, h1 hc]
        · intro hc
          refine ⟨?_, ?_⟩
          · intro off hoff
            rw [hred, (h2 hc).1 off hoff]
          · intro hoff
            rw [hred, (h2 hc).2 hoff]

/-! ### C1: source preservation on completion -/

/-- C1 counterexample: completing a task whose checkbox is followed by two
tabs rewrites more of the line than the box (the separating whitespace
collapses to one space), and completing in a file with CR-LF terminators
rewrites the terminators of untouched lines, so content outside the matched
or inserted line changes. -/
theorem source_preservation_counterexample :
    (completeMarkdownTask "- [ ]\t\tA" "A").status = .updated ∧
    (completeMarkdownTask "- [ ]\t\tA" "A").updated = "- [x] A" ∧
    (completeMarkdownTask "- [ ]\t\tA" "A").updated ≠ "- [x]\t\tA" ∧
    (completeYamlTask "tasks:\r\n  - title: A" "A").status = .updated ∧
    ¬ ("tasks:\r\n  - title: A".data <+:
        (completeYamlTask "tasks:\r\n  - title: A" "A").updated.data) := by decide

/-- C1 amended: on an updated status the line decomposition of the output is
the input's with exactly one change.  For Markdown the first matched unchecked
task line is rewritten as its captured prefix, a checked box, one space and
the captured text (the original whitespace between box and text collapses to
the single space); every other line is kept and the lines are rejoined with
LF.  For YAML exactly one completed line is rewritten (or replaced) or one
completed-true line is inserted right after the matched block's title line,
again rejoined with LF. -/
theorem source_preservation_amended (contents title : String) :
    ((completeMarkdownTask contents title).status = .updated →
      ∃ i m,
        (splitLines contents.data).findIdx? (mdLineMatchesTitle (trimJs title.data)) = some i ∧
        matchTaskLine ((splitLines contents.data).getD i []) = some m ∧
        trimJs m.text = trimJs title.data ∧
        Char.toLower m.statusChar ≠ 'x' ∧
        (completeMarkdownTask contents title).updated =
          String.mk (joinLines ((splitLines contents.data).set i
            (m.prefixPart ++ '[' :: 'x' :: ']' :: ' ' :: m.text)))) ∧
    ((completeYamlTask contents title).status = .updated →
      ∃ b, (extractTaskBlocks contents.data).find?
          (yamlBlockMatchesTitle (trimJs title.data)) = some b ∧
        (parseTaskBlock b).completed = false ∧
        ((∃ off, (parseTaskBlock b).completedLineOffset = some off ∧
            (completeYamlTask contents title).updated =
              String.mk (joinLines ((splitLines contents.data).set (b.startIndex + off)
                (yamlCompletedNewLine ((splitLines contents.data).getD (b.startIndex + off) [])
                  (parseTaskBlock b).propertyIndent)))) ∨
          ((parseTaskBlock b).completedLineOffset = none ∧
            (completeYamlTask contents title).updated =
              String.mk (joinLines ((splitLines contents.data).insertIdx
                (b.startIndex + (parseTaskBlock b).titleLineOffset.getD 0 + 1)
                ((parseTaskBlock b).propertyIndent ++ "completed: true".data)))))) := by
  constructor
  · intro h
    have hspec := completeMdLines_spec (trimJs title.data) (splitLines contents.data)
    rcases hf : (splitLines contents.data).findIdx?
        (mdLineMatchesTitle (trimJs title.data)) with _ | i <;>
      rw [hf] at hspec <;> simp only [] at hspec
    · exfalso
      simp [completeMarkdownTask, hspec] at h
    · obtain ⟨m, hm1, hm2, hm3, hm4⟩ := hspec
      by_cases hx : Char.toLower m.statusChar = 'x'
      · exfalso
        simp [completeMarkdownTask, hm3 hx] at h
      · refine ⟨i, m, rfl, hm1, hm2, hx, ?_⟩
        simp [completeMarkdownTask, hm4 hx]
  · intro h
    have hspec := completeYamlBlocks_spec (splitLines contents.data) (trimJs title.data)
      (extractTaskBlocks contents.data)
    rcases hf : (extractTaskBlocks contents.data).find?
        (yamlBlockMatchesTitle (trimJs title.data)) with _ | b <;>
      rw [hf] at hspec <;> simp only [] at hspec
    · exfalso
      simp [completeYamlTask, hspec] at h
    · obtain ⟨h1, h2⟩ := hspec
      cases hcomp : (parseTaskBlock b).completed
      · rcases hoff : (parseTaskBlock b).completedLineOffset with _ | off
        · refine ⟨b, rfl, hcomp, Or.inr ⟨hoff, ?_⟩⟩
          simp [completeYamlTask, (h2 hcomp).2 hoff]
        · refine ⟨b, rfl, hcomp, Or.inl ⟨off, hoff, ?_⟩⟩
          simp [completeYamlTask, (h2 hcomp).1 off hoff]
      · exfalso
        simp [completeYamlTask, h1 hcomp] at h

/-- Witness for the amended C1 at a content updated by both back ends. -/
theorem source_preservation_amended_witness :
    (completeMarkdownTask preserveWitnessContents "A").status = .updated ∧
    (completeYamlTask preserveWitnessContents "A").status = .updated ∧
    (∃ i m,
      (splitLines preserveWitnessContents.data).findIdx?
        (mdLineMatchesTitle (trimJs "A".data)) = some i ∧
      matchTaskLine ((splitLines preserveWitnessContents.data).getD i []) = some m ∧
      trimJs m.text = trimJs "A".data ∧
      Char.toLower m.statusChar ≠ 'x' ∧
      (completeMarkdownTask preserveWitnessContents "A").updated =
        String.mk (joinLines ((splitLines preserveWitnessContents.data).set i
          (m.prefixPart ++ '[' :: 'x' :: ']' :: ' ' :: m.text)))) ∧
    (∃ b, (extractTaskBlocks preserveWitnessContents.data).find?
        (yamlBlockMatchesTitle (trimJs "A".data)) = some b ∧
      (parseTaskBlock b).completed = false ∧
      ((∃ off, (parseTaskBlock b).completedLineOffset = some off ∧
          (completeYamlTask preserveWitnessContents "A").updated =
            String.mk (joinLines ((splitLines preserveWitnessContents.data).set
              (b.startIndex + off)
              (yamlCompletedNewLine ((splitLines preserveWitnessContents.data).getD
                (b.startIndex + off) []) (parseTaskBlock b).propertyIndent)))) ∨
        ((parseTaskBlock b).completedLineOffset = none ∧
          (completeYamlTask preserveWitnessContents "A").updated =
            String.mk (joinLines ((splitLines preserveWitnessContents.data).insertIdx
              (b.startIndex + (parseTaskBlock b).titleLineOffset.getD 0 + 1)
              ((parseTaskBlock b).propertyIndent ++ "completed: true".data)))))) :=
  ⟨by decide, by decide,
    (source_preservation_amended preserveWitnessContents "A").1 (by decide),
    (source_preservation_amended preserveWitnessContents "A").2 (by decide)⟩

/-! ### C2: idempotent completion -/

/-- C2 at the failing input: completing a YAML task whose completed line
carries a trailing comment glues the word true to the comment, the resulting
line no longer parses as completed, and the second completion again reports
updated (with the content unchanged) instead of already-complete. -/
theorem completion_idempotence_bug :
    (completeYamlTask "tasks:\n  - title: A\n    completed: false # pending" "A").status =
      .updated ∧
    (completeYamlTask "tasks:\n  - title: A\n    completed: false # pending" "A").updated =
      "tasks:\n  - title: A\n    completed: true# pending" ∧
    (completeYamlTask "tasks:\n  - title: A\n    completed: true# pending" "A").status =
      .updated ∧
    (completeYamlTask "tasks:\n  - title: A\n    completed: true# pending" "A").updated =
      "tasks:\n  - title: A\n    completed: true# pending" := by decide

/-! ### C5: the YAML completion algorithm -/

/-- C5 counterexample: when the completed property sits on the block's dash
line, completion does not rewrite that line's value; it replaces the whole
line with the property indentation and a completed-true pair, destroying the
dash item marker. -/
theorem yaml_completion_counterexample :
    (completeYamlTask "tasks:\n  - completed: false\n    title: A" "A").status = .updated ∧
    (completeYamlTask "tasks:\n  - completed: false\n    title: A" "A").updated =
      "tasks:\n    completed: true\n    title: A" ∧
    (completeYamlTask "tasks:\n  - completed: false\n    title: A" "A").updated ≠
      "tasks:\n  - completed: true\n    title: A" := by decide

/-- C5 amended: for the first block matching the title and not yet completed,
the status is updated and: when the block has a completed line, that line is
rewritten by yamlCompletedNewLine (its value region up to the first hash
replaced by the word true with the remainder kept, or the whole line replaced
by the property indentation and a completed-true pair when the standalone
completed-line pattern fails, as on a dash line); when it has none, the
property indentation and a completed-true pair are inserted immediately after
the title line. -/
theorem yaml_completion_algorithm (contents title : String) (b : TaskBlock)
    (hfind : (extractTaskBlocks contents.data).find?
      (yamlBlockMatchesTitle (trimJs title.data)) = some b)
    (hnc : (parseTaskBlock b).completed = false) :
    (completeYamlTask contents title).status = .updated ∧
    (∀ off, (parseTaskBlock b).completedLineOffset = some off →
      (completeYamlTask contents title).updated =
        String.mk (joinLines ((splitLines contents.data).set (b.startIndex + off)
          (yamlCompletedNewLine ((splitLines contents.data).getD (b.startIndex + off) [])
            (parseTaskBlock b).propertyIndent)))) ∧
    ((parseTaskBlock b).completedLineOffset = none →
      (completeYamlTask contents title).updated =
        String.mk (joinLines ((splitLines contents.data).insertIdx
          (b.startIndex + (parseTaskBlock b).titleLineOffset.getD 0 + 1)
          ((parseTaskBlock b).propertyIndent ++ "completed: true".data)))) := by
  have hspec := completeYamlBlocks_spec (splitLines contents.data) (trimJs title.data)
    (extractTaskBlocks contents.data)
  rw [hfind] at hspec
  simp only [] at hspec
  obtain ⟨_, h2⟩ := hspec
  refine ⟨?_, ?_, ?_⟩
  · rcases hoff : (parseTaskBlock b).completedLineOffset with _ | off
    · simp [completeYamlTask, (h2 hnc).2 hoff]
    · simp [completeYamlTask, (h2 hnc).1 off hoff]
  · intro off hoff
    simp [completeYamlTask, (h2 hnc).1 off hoff]
  · intro hoff
    simp [completeYamlTask, (h2 hnc).2 hoff]

/-- Witness for the amended C5 at a block without a completed line: the
completed-true pair is inserted right after the title line. -/
theorem yaml_completion_algorithm_witness :
    (extractTaskBlocks "tasks:\n  - title: A".data).find?
      (yamlBlockMatchesTitle (trimJs "A".data)) = some algoWitnessBlock ∧
    (parseTaskBlock algoWitnessBlock).completed = false ∧
    ((completeYamlTask "tasks:\n  - title: A" "A").status = .updated ∧
      (∀ off, (parseTaskBlock algoWitnessBlock).completedLineOffset = some off →
        (completeYamlTask "tasks:\n  - title: A" "A").updated =
          String.mk (joinLines ((splitLines "tasks:\n  - title: A".data).set
            (algoWitnessBlock.startIndex + off)
            (yamlCompletedNewLine ((splitLines "tasks:\n  - title: A".data).getD
              (algoWitnessBlock.startIndex + off) [])
              (parseTaskBlock algoWitnessBlock).propertyIndent)))) ∧
      ((parseTaskBlock algoWitnessBlock).completedLineOffset = none →
        (completeYamlTask "tasks:\n  - title: A" "A").updated =
          String.mk (joinLines ((splitLines "tasks:\n  - title: A".data).insertIdx
            (algoWitnessBlock.startIndex +
              (parseTaskBlock algoWitnessBlock).titleLineOffset.getD 0 + 1)
            ((parseTaskBlock algoWitnessBlock).propertyIndent ++ "completed: true".data))))) :=
  ⟨by decide, by decide,
    yaml_completion_algorithm "tasks:\n  - title: A" "A" algoWitnessBlock (by decide) (by decide)⟩

/-! ### C10: duplicate titles resolve to the first occurrence -/

/-- C10: completion acts on the first matching occurrence only.  For Markdown
the first task line with the target title decides the outcome: checked means
already-complete with the contents returned verbatim (later unchecked
duplicates stay untouched), unchecked means that line alone is rewritten.
For YAML the first matching block decides likewise: a completed first block
reports already-complete with the contents verbatim. -/
theorem duplicate_titles_first_occurrence (contents title : String) :
    (∀ i, (splitLines contents.data).findIdx?
        (mdLineMatchesTitle (trimJs title.data)) = some i →
      ∃ m, matchTaskLine ((splitLines contents.data).getD i []) = some m ∧
        (Char.toLower m.statusChar = 'x' →
          completeMarkdownTask contents title = ⟨.alreadyComplete, title, contents⟩) ∧
        (Char.toLower m.statusChar ≠ 'x' →
          (completeMarkdownTask contents title).status = .updated ∧
          (completeMarkdownTask contents title).updated =
            String.mk (joinLines ((splitLines contents.data).set i
              (m.prefixPart ++ '[' :: 'x' :: ']' :: ' ' :: m.text))))) ∧
    (∀ b, (extractTaskBlocks contents.data).find?
        (yamlBlockMatchesTitle (trimJs title.data)) = some b →
      (parseTaskBlock b).completed = true →
      completeYamlTask contents title = ⟨.alreadyComplete, title, contents⟩) := by
  constructor
  · intro i hf
    have hspec := completeMdLines_spec (trimJs title.data) (splitLines contents.data)
    rw [hf] at hspec
    simp only [] at hspec
    obtain ⟨m, hm1, _, hm3, hm4⟩ := hspec
    refine ⟨m, hm1, ?_, ?_⟩
    · intro hx
      simp [completeMarkdownTask, hm3 hx]
    · intro hx
      constructor <;> simp [completeMarkdownTask, hm4 hx]
  · intro b hf hc
    have hspec := completeYamlBlocks_spec (splitLines contents.data) (trimJs title.data)
      (extractTaskBlocks contents.data)
    rw [hf] at hspec
    simp only [] at hspec
    simp [completeYamlTask, hspec.1 hc]

/-- Witness for C10: with both duplicates present, completion reports
already-complete in both back ends and returns the contents verbatim,
leaving the later unchecked duplicates unchanged. -/
theorem duplicate_titles_first_occurrence_witness :
    (splitLines dupWitnessContents.data).findIdx?
      (mdLineMatchesTitle (trimJs "T".data)) = some 0 ∧
    (extractTaskBlocks dupWitnessContents.data).find?
      (yamlBlockMatchesTitle (trimJs "T".data)) = some dupWitnessBlock ∧
    (parseTaskBlock dupWitnessBlock).completed = true ∧
    (∃ m, matchTaskLine ((splitLines dupWitnessContents.data).getD 0 []) = some m ∧
      (Char.toLower m.statusChar = 'x' →
        completeMarkdownTask dupWitnessContents "T" =
          ⟨.alreadyComplete, "T", dupWitnessContents⟩) ∧
      (Char.toLower m.statusChar ≠ 'x' →
        (completeMarkdownTask dupWitnessContents "T").status = .updated ∧
        (completeMarkdownTask dupWitnessContents "T").updated =
          String.mk (joinLines ((splitLines dupWitnessContents.data).set 0
            (m.prefixPart ++ '[' :: 'x' :: ']' :: ' ' :: m.text))))) ∧
    completeYamlTask dupWitnessContents "T" = ⟨.alreadyComplete, "T", dupWitnessContents⟩ :=
  ⟨by decide, by decide, by decide,
    (duplicate_titles_first_occurrence dupWitnessContents "T").1 0 (by decide),
    (duplicate_titles_first_occurrence dupWitnessContents "T").2 dupWitnessBlock
      (by decide) (by decide)⟩

end Ralphy
